import Mathlib

/-!
Verification development for the time-indexed composition core of an
editorial-timeline library.  The embedded code comes from:

* `tests/benchmarks/composition_benchmark.cpp` — a scalar reference
  bisection (`bisect_right_original`) and three performance-tuned variants
  (`bisect_right_optimized_v2/_v3/_v4`);
* `src/opentimelineio/composition.h` — the recursive, type-filtered,
  range-narrowing tree walk `Composition::find_children`.

Machine `int64_t` indices are modelled as mathematical integers (`Int` at
the interface, `Nat` inside the loops, which the code keeps non-negative);
the exact rational time type is modelled by an arbitrary linearly ordered
type.  The C++ loops are embedded as fuel-indexed structural recursions so
that every definition is executable by kernel reduction; the wrappers pass
the fuel `upper - lower`, and fuel-sufficiency is proved as a theorem.
-/

namespace OTIO

/-- Error outcome kinds, modelled from `opentimelineio/errorStatus.h`
(declarations only are visible from `src/`): `OK` is the non-error state and
`INTERNAL_ERROR` is the kind the benchmarked bisection code stores for a
negative lower search bound; `OTHER` stands for the remaining kinds of the
enum, which the embedded code never constructs. -/
inductive Outcome where
  | OK
  | INTERNAL_ERROR
  | OTHER (code : Nat)
deriving DecidableEq

/-- Modelled from the spec: the mutable error-report record the caller may
supply ("populated with an error kind and message on failure and left
untouched on success"); mirrors `otio::ErrorStatus` with its outcome and
details string. -/
structure ErrorStatus where
  outcome : Outcome
  details : String
deriving DecidableEq

/-- Modelled from the spec: `is_error(error_status)` on a possibly null
`ErrorStatus*` — true exactly when a handle was supplied and it holds a
non-`OK` outcome.  A `none` handle models a null pointer and is never an
error. -/
def is_error : Option ErrorStatus → Bool
  | none => false
  | some e => decide (e.outcome ≠ Outcome.OK)

/-- The `ErrorStatus` value stored by every bisection variant when
`lower_search_bound` is negative. -/
def negBoundError : ErrorStatus :=
  ErrorStatus.mk Outcome.INTERNAL_ERROR "lower_search_bound must be non-negative"

/-- An `OK` status, as default-constructed by callers. -/
def esOK : ErrorStatus := ErrorStatus.mk Outcome.OK ""

variable {α : Type} [LinearOrder α]

/-- The `while (*lower_search_bound < *upper_search_bound)` loop of
`bisect_right_original`, fuel-indexed.  `midpoint_index` is
`std::floor((lower + upper) / 2.0)`, i.e. `(l + u) / 2` on the
non-negative integers the loop maintains; the comparison is the exact
total order of the time type.  The fuel only pads the recursion: the
wrapper passes `u - l`, which is proved sufficient. -/
def brLoopF (keyAt : Nat → α) (tgt : α) : Nat → Nat → Nat → Nat
  | 0, l, _ => l
  | fuel + 1, l, u =>
    if l < u then
      let m := (l + u) / 2
      if tgt < keyAt m then brLoopF keyAt tgt fuel l m
      else brLoopF keyAt tgt fuel (m + 1) u
    else l

/-- The reference search loop run to completion (fuel `u - l`). -/
def brLoop (keyAt : Nat → α) (tgt : α) (l u : Nat) : Nat :=
  brLoopF keyAt tgt (u - l) l u

/-- The branchless `while (left < right)` loop shared by
`bisect_right_optimized_v2` (its only loop) and `bisect_right_optimized_v3`
(its final cleanup loop): `mid = left + ((right - left) >> 1)`;
`left += (mid_val <= target_val) * (mid + 1 - left)` and
`right -= (mid_val > target_val) * (right - mid)` update exactly one bound
per iteration. -/
def blLoopF (keyAt : Nat → α) (tgt : α) : Nat → Nat → Nat → Nat
  | 0, l, _ => l
  | fuel + 1, l, u =>
    if l < u then
      let m := l + (u - l) / 2
      if keyAt m ≤ tgt then blLoopF keyAt tgt fuel (m + 1) u
      else blLoopF keyAt tgt fuel l m
    else l

/-- The branchless loop run to completion (fuel `u - l`). -/
def blLoop (keyAt : Nat → α) (tgt : α) (l u : Nat) : Nat :=
  blLoopF keyAt tgt (u - l) l u

/-- The unrolled `while (right - left > 4)` loop of
`bisect_right_optimized_v3` with its three probe points
`mid1 = left + range/4`, `mid2 = left + range/2`, `mid3 = right - range/4`,
followed by the branchless cleanup loop once at most four elements
remain. -/
def v3LoopF (keyAt : Nat → α) (tgt : α) : Nat → Nat → Nat → Nat
  | 0, l, _ => l
  | fuel + 1, l, u =>
    if u - l > 4 then
      let range := u - l
      let m1 := l + range / 4
      let m2 := l + range / 2
      let m3 := u - range / 4
      if tgt < keyAt m1 then v3LoopF keyAt tgt fuel l m1
      else if tgt < keyAt m2 then v3LoopF keyAt tgt fuel (m1 + 1) m2
      else if tgt < keyAt m3 then v3LoopF keyAt tgt fuel (m2 + 1) m3
      else v3LoopF keyAt tgt fuel (m3 + 1) u
    else blLoopF keyAt tgt (u - l) l u

/-- The unrolled loop of v3 run to completion (fuel `u - l`). -/
def v3Loop (keyAt : Nat → α) (tgt : α) (l u : Nat) : Nat :=
  v3LoopF keyAt tgt (u - l) l u

/-- The `while (left < right)` loop of `bisect_right_optimized_v4`: the
prefetch hints touch no program state, and the bound updates are driven by
`const bool is_less = mid_val <= target_val`. -/
def v4LoopF (keyAt : Nat → α) (tgt : α) : Nat → Nat → Nat → Nat
  | 0, l, _ => l
  | fuel + 1, l, u =>
    if l < u then
      let m := l + (u - l) / 2
      let less : Bool := decide (keyAt m ≤ tgt)
      if less then v4LoopF keyAt tgt fuel (m + 1) u
      else v4LoopF keyAt tgt fuel l m
    else l

/-- The v4 loop run to completion (fuel `u - l`). -/
def v4Loop (keyAt : Nat → α) (tgt : α) (l u : Nat) : Nat :=
  v4LoopF keyAt tgt (u - l) l u

/-- `bisect_right_original` from the benchmark.  The sequence together with
the pure `key_func` is abstracted as `keyAt : Nat → α` (the key of the
element at each index) plus the length `n = seq.size()`.  The outer
`Option` models the unconditional dereference `*lower_search_bound`: a
`none` lower bound (an empty `std::optional`) is undefined behaviour, so
the function is undefined (`none`) there.  Otherwise the result pairs the
returned index with the final contents of the (possibly absent) error
handle. -/
def bisect_right_original (n : Nat) (keyAt : Nat → α) (tgt : α)
    (error_status : Option ErrorStatus)
    (lower_search_bound upper_search_bound : Option Int) :
    Option (Int × Option ErrorStatus) :=
  match lower_search_bound with
  | none => none
  | some l =>
    if l < 0 then
      some (0, error_status.map fun _ => negBoundError)
    else
      let u : Int := upper_search_bound.getD (n : Int)
      some ((brLoop keyAt tgt l.toNat u.toNat : Nat), error_status)

/-- `bisect_right_optimized_v2` from the benchmark (same guard, then
`left = *lower_search_bound`, `right = upper ? *upper : seq.size()`, then
the branchless loop). -/
def bisect_right_optimized_v2 (n : Nat) (keyAt : Nat → α) (tgt : α)
    (error_status : Option ErrorStatus)
    (lower_search_bound upper_search_bound : Option Int) :
    Option (Int × Option ErrorStatus) :=
  match lower_search_bound with
  | none => none
  | some l =>
    if l < 0 then
      some (0, error_status.map fun _ => negBoundError)
    else
      let u : Int := upper_search_bound.getD (n : Int)
      some ((blLoop keyAt tgt l.toNat u.toNat : Nat), error_status)

/-- `bisect_right_optimized_v3` from the benchmark (same guard, then the
unrolled loop followed by the branchless cleanup loop). -/
def bisect_right_optimized_v3 (n : Nat) (keyAt : Nat → α) (tgt : α)
    (error_status : Option ErrorStatus)
    (lower_search_bound upper_search_bound : Option Int) :
    Option (Int × Option ErrorStatus) :=
  match lower_search_bound with
  | none => none
  | some l =>
    if l < 0 then
      some (0, error_status.map fun _ => negBoundError)
    else
      let u : Int := upper_search_bound.getD (n : Int)
      some ((v3Loop keyAt tgt l.toNat u.toNat : Nat), error_status)

/-- `bisect_right_optimized_v4` from the benchmark (same guard; the
prefetching is semantically a no-op). -/
def bisect_right_optimized_v4 (n : Nat) (keyAt : Nat → α) (tgt : α)
    (error_status : Option ErrorStatus)
    (lower_search_bound upper_search_bound : Option Int) :
    Option (Int × Option ErrorStatus) :=
  match lower_search_bound with
  | none => none
  | some l =>
    if l < 0 then
      some (0, error_status.map fun _ => negBoundError)
    else
      let u : Int := upper_search_bound.getD (n : Int)
      some ((v4Loop keyAt tgt l.toNat u.toNat : Nat), error_status)

/-- Effective lower bound index after the sign guard. -/
def lowEff (lower : Option Int) : Nat := (lower.getD 0).toNat

/-- Effective upper bound index: the supplied `upper_search_bound`, or the
sequence length when absent ("upper defaults to sequence length at call
time"). -/
def upEff (n : Nat) (upper : Option Int) : Nat := (upper.getD (n : Int)).toNat

/-- The precondition of §4.2/§3-invariant-4: the key images over the index
sub-range `[a, b)` are non-decreasing. -/
def sortedOn (keyAt : Nat → α) (a b : Nat) : Prop :=
  ∀ j, j < b → ∀ i, i ≤ j → a ≤ i → keyAt i ≤ keyAt j

instance sortedOn_decidable (keyAt : Nat → Int) (a b : Nat) :
    Decidable (sortedOn keyAt a b) := by
  unfold sortedOn
  infer_instance

/-- Key sequence of the C1 counterexample: not sorted on `[0, 5)`. -/
def exKey : Nat → Int := fun i => ([-1, 100, -100, -100, 100] : List Int).getD i 0

/-- Key sequence used by the concrete witnesses: sorted on `[0, 6)`. -/
def wKey : Nat → Int := fun i => ([1, 2, 2, 3, 5, 8] : List Int).getD i 0

/-- A key sequence agreeing with `wKey` on `[0, 6)` and differing above. -/
def wKeyB : Nat → Int := fun i => if i < 6 then wKey i else 0

/-- The result the spec assigns to `bisect_right` over `[l, u)`: everything
at index `r` and beyond exceeds the target, everything before `r` does
not. -/
def isBR (keyAt : Nat → α) (tgt : α) (l u r : Nat) : Prop :=
  l ≤ r ∧ r ≤ u ∧ (∀ j, r ≤ j → j < u → tgt < keyAt j) ∧
    (∀ j, l ≤ j → j < r → keyAt j ≤ tgt)

/-!
## The `find_children` tree walk (`composition.h`)

A `Composable` node carries an identity (`id`), the outcome of the
`dynamic_cast<T*>` type filter for the one template type `T` of the call
(`m`, true iff the node satisfies `T`), and — when it is a `Composition` —
its ordered child list.  The two collaborators `find_children` calls are
passed in as function parameters:

* `xf` models the external `transformed_time_range(range, composition,
  error_status)`: given the target composition's id and a range it returns
  the transformed range together with the error it stores in a supplied
  handle (`none` on success);
* `cir` models the virtual `children_in_range(range, error_status)` of the
  composition being searched (its definition lives in `composition.cpp`,
  outside `src/`); modelled from the spec, a successful call selects the
  contiguous slice `children[first, last)`, an erroring call additionally
  yields the fallback empty sequence.

Ranges themselves are never inspected by `find_children`, so their type
`ρ` stays abstract.  Results are reported as the list of matched node
ids, in order.
-/

/-- A timeline node: a non-composition item, or a composition with its
ordered children. -/
inductive Composable where
  | item (id : Nat) (m : Bool)
  | comp (id : Nat) (m : Bool) (children : List Composable)

/-- Identity of a node. -/
def idOf : Composable → Nat
  | .item i _ => i
  | .comp i _ _ => i

/-- Whether `dynamic_cast<T*>` succeeds on the node for the call's filter
type `T`. -/
def matchesT : Composable → Bool
  | .item _ m => m
  | .comp _ m _ => m

/-- The same node with the type-filter outcome replaced. -/
def withMatch : Composable → Bool → Composable
  | .item i _, b => .item i b
  | .comp i _ cs, b => .comp i b cs

variable {ρ : Type}

/-- The search range the loop of `find_children` passes to the children
that follow a given child: the code reassigns
`search_range = transformed_time_range(*search_range, composition, ...)`
whenever the child is a composition and a range is present, so the
transformed range (not the incoming one) is what both the recursion and
the remaining siblings receive. -/
def nextRange (xf : Nat → ρ → ρ × Option ErrorStatus) :
    Composable → Option ρ → Option ρ
  | .comp cid _ _, some r => some (xf cid r).1
  | _, sr => sr

/-- The `for (const auto& child : children)` loop of
`Composition::find_children`, with the recursive call abstracted as `rec`.
State threaded exactly as in the code: the (reassigned) search range, the
contents of the (possibly absent) error handle, and the accumulated output
`out`.  A matching child is appended first; then, unless the search is
shallow, a composition child has the range transformed (`is_error` checked,
returning `out` on error), is recursed into (`is_error` checked, returning
`out` without the subtree's partial results on error), and its matches are
appended before the next sibling is visited. -/
def fcLoopF (xf : Nat → ρ → ρ × Option ErrorStatus) (sh : Bool)
    (rec : Composable → Option ρ → Option ErrorStatus →
      List Nat × Option ErrorStatus) :
    List Composable → Option ρ → Option ErrorStatus → List Nat →
      List Nat × Option ErrorStatus
  | [], _, es, out => (out, es)
  | c :: rest, sr, es, out =>
    let out1 := if matchesT c then out ++ [idOf c] else out
    if sh then fcLoopF xf sh rec rest sr es out1
    else
      match c with
      | .item _ _ => fcLoopF xf sh rec rest sr es out1
      | .comp ccid cm ccs =>
        let tr : Option ρ × Option ErrorStatus :=
          match sr with
          | none => (none, es)
          | some r =>
            let q := xf ccid r
            (some q.1, match q.2 with
              | none => es
              | some e => es.map fun _ => e)
        if is_error tr.2 then (out1, tr.2)
        else
          let rr := rec (Composable.comp ccid cm ccs) tr.1 tr.2
          if is_error rr.2 then (out1, rr.2)
          else fcLoopF xf sh rec rest tr.1 rr.2 (out1 ++ rr.1)

/-- `Composition::find_children`, fuel-indexed (the fuel bounds the
recursion depth; the wrapper passes `sizeOf` of the node, which always
suffices).  With a search range present the children are first narrowed by
`children_in_range` — on error the handle is populated, and `is_error`
aborts with the empty result (with a null handle the walk continues over
the fallback empty sequence) — and then the loop runs. -/
def findChildrenF (xf : Nat → ρ → ρ × Option ErrorStatus)
    (cir : Nat → ρ → (Nat × Nat) × Option ErrorStatus) (sh : Bool) :
    Nat → Composable → Option ρ → Option ErrorStatus →
      List Nat × Option ErrorStatus
  | 0, _, _, es => ([], es)
  | _ + 1, .item _ _, _, es => ([], es)
  | fuel + 1, .comp cid _ cs, sr, es =>
    match sr with
    | none => fcLoopF xf sh (findChildrenF xf cir sh fuel) cs none es []
    | some r =>
      let q := cir cid r
      let es1 : Option ErrorStatus :=
        match q.2 with
        | none => es
        | some e => es.map fun _ => e
      let kids : List Composable :=
        match q.2 with
        | none => (cs.drop q.1.1).take (q.1.2 - q.1.1)
        | some _ => []
      if is_error es1 then ([], es1)
      else fcLoopF xf sh (findChildrenF xf cir sh fuel) kids (some r) es1 []

mutual

/-- Size of a node, used as recursion fuel for `find_children`. -/
def csize : Composable → Nat
  | .item _ _ => 1
  | .comp _ _ cs => csizeL cs + 1

/-- Combined size of a list of nodes. -/
def csizeL : List Composable → Nat
  | [] => 0
  | c :: cs => csize c + csizeL cs + 1

end

/-- `find_children` run with sufficient fuel. -/
def find_children (xf : Nat → ρ → ρ × Option ErrorStatus)
    (cir : Nat → ρ → (Nat × Nat) × Option ErrorStatus)
    (node : Composable) (search_range : Option ρ)
    (error_status : Option ErrorStatus) (shallow_search : Bool) :
    List Nat × Option ErrorStatus :=
  findChildrenF xf cir shallow_search (csize node) node search_range error_status

/-- The matches contributed by one child's subtree: nothing for a
non-composition child, the recursive result for a composition child. -/
def subtreeMatches
    (rec : Composable → Option ρ → Option ErrorStatus →
      List Nat × Option ErrorStatus)
    (c : Composable) (sr : Option ρ) (es : Option ErrorStatus) : List Nat :=
  match c with
  | .item _ _ => []
  | .comp _ _ _ => (rec c sr es).1

/-- The spec's ordering shape for the deep walk (§4.5): visiting siblings
left to right, each child contributes its own entry (if it matches `T`)
immediately followed by the contiguous block of its subtree's matches,
before anything of the next sibling; the search range each child sees is
the one the loop threads (`nextRange`). -/
def walkSpec (xf : Nat → ρ → ρ × Option ErrorStatus)
    (rec : Composable → Option ρ → Option ErrorStatus →
      List Nat × Option ErrorStatus)
    (es : Option ErrorStatus) : List Composable → Option ρ → List Nat
  | [], _ => []
  | c :: rest, sr =>
    (if matchesT c then [idOf c] else [])
      ++ subtreeMatches rec c (nextRange xf c sr) es
      ++ walkSpec xf rec es rest (nextRange xf c sr)

/-- Concrete transform for the C3 failing input: shifting into any child's
local space adds 1 to the (abstractly numbered) range. -/
def exXf : Nat → Int → Int × Option ErrorStatus := fun _ r => (r + 1, none)

/-- Concrete narrowing for the C3 failing input: both ranges 0 and 1 keep
all (up to two) children, any other range keeps none. -/
def exCir : Nat → Int → (Nat × Nat) × Option ErrorStatus :=
  fun _ r => ((0, if r ≤ 1 then 2 else 0), none)

/-- The C3 failing input: a root with two composition children, each
holding one matching item. -/
def exTree : Composable :=
  .comp 0 false [.comp 1 false [.item 10 true], .comp 2 false [.item 20 true]]

/-- Transform used by the concrete witnesses (same shape as `exXf`). -/
def wXf : Nat → Int → Int × Option ErrorStatus := fun _ r => (r + 1, none)

/-- Narrowing used by the C5 witness: always the slice `[1, 3)`. -/
def wCir : Nat → Int → (Nat × Nat) × Option ErrorStatus := fun _ _ => ((1, 3), none)

/-- Children visited in the C5/C6 witnesses. -/
def wKids : List Composable :=
  [.item 1 true, .comp 2 true [.item 9 true], .item 3 false]

/-- A recursion oracle for the C6 witness: every subtree reports the single
match `7` and leaves the handle unchanged. -/
def recW : Composable → Option Int → Option ErrorStatus →
    List Nat × Option ErrorStatus := fun _ _ es2 => ([7], es2)

/-- A non-`OK` error report for the C7 witness. -/
def errE : ErrorStatus := ErrorStatus.mk (Outcome.OTHER 7) "boom"

/-- A `children_in_range` oracle that always fails with `errE`. -/
def badCir : Nat → Int → (Nat × Nat) × Option ErrorStatus :=
  fun _ _ => ((0, 0), some errE)

/-- A range transform that always fails with `errE`. -/
def badXf : Nat → Int → Int × Option ErrorStatus := fun _ _ => ((0 : Int), some errE)

/-- A recursion oracle that reports matches but comes back with an erroring
handle. -/
def recErr : Composable → Option Int → Option ErrorStatus →
    List Nat × Option ErrorStatus := fun _ _ _ => ([5], some errE)

theorem sortedOn_mono (keyAt : Nat → α) (a b a2 b2 : Nat) (ha : a ≤ a2)
    (hb : b2 ≤ b) (hs : sortedOn keyAt a b) : sortedOn keyAt a2 b2 :=
  fun j hj i hij hai => hs j (lt_of_lt_of_le hj hb) i hij (le_trans ha hai)

theorem brLoopF_stop (keyAt : Nat → α) (tgt : α) (fuel l u : Nat) (h : ¬ l < u) :
    brLoopF keyAt tgt fuel l u = l := by
  cases fuel <;> simp [brLoopF, h]

theorem blLoopF_stop (keyAt : Nat → α) (tgt : α) (fuel l u : Nat) (h : ¬ l < u) :
    blLoopF keyAt tgt fuel l u = l := by
  cases fuel <;> simp [blLoopF, h]

theorem v4LoopF_stop (keyAt : Nat → α) (tgt : α) (fuel l u : Nat) (h : ¬ l < u) :
    v4LoopF keyAt tgt fuel l u = l := by
  cases fuel <;> simp [v4LoopF, h]

theorem v3LoopF_stop (keyAt : Nat → α) (tgt : α) (fuel l u : Nat) (h : ¬ l < u) :
    v3LoopF keyAt tgt fuel l u = l := by
  cases fuel with
  | zero => rfl
  | succ fuel =>
    have h4 : ¬ u - l > 4 := by omega
    have h0 : u - l = 0 := by omega
    simp [v3LoopF, h4, h0, blLoopF]

/-- The branchless v2 loop takes exactly the probes and branches of the
reference loop. -/
theorem blLoopF_eq_brLoopF (keyAt : Nat → α) (tgt : α) :
    ∀ fuel l u, blLoopF keyAt tgt fuel l u = brLoopF keyAt tgt fuel l u := by
  intro fuel
  induction fuel with
  | zero => intro l u; rfl
  | succ fuel ih =>
    intro l u
    by_cases h : l < u
    · have hm : l + (u - l) / 2 = (l + u) / 2 := by omega
      by_cases hc : tgt < keyAt ((l + u) / 2)
      · have hc2 : ¬ keyAt ((l + u) / 2) ≤ tgt := not_le.mpr hc
        simp only [blLoopF, brLoopF, if_pos h, hm, if_pos hc, if_neg hc2]
        exact ih l ((l + u) / 2)
      · have hc2 : keyAt ((l + u) / 2) ≤ tgt := not_lt.mp hc
        simp only [blLoopF, brLoopF, if_pos h, hm, if_neg hc, if_pos hc2]
        exact ih ((l + u) / 2 + 1) u
    · rw [blLoopF_stop keyAt tgt _ l u h, brLoopF_stop keyAt tgt _ l u h]

/-- The v4 loop is the v2 loop with the comparison bound to a local flag. -/
theorem v4LoopF_eq_blLoopF (keyAt : Nat → α) (tgt : α) :
    ∀ fuel l u, v4LoopF keyAt tgt fuel l u = blLoopF keyAt tgt fuel l u := by
  intro fuel
  induction fuel with
  | zero => intro l u; rfl
  | succ fuel ih =>
    intro l u
    by_cases h : l < u
    · simp only [v4LoopF, blLoopF, if_pos h, decide_eq_true_eq]
      by_cases hc : keyAt (l + (u - l) / 2) ≤ tgt
      · simp only [if_pos hc]
        exact ih (l + (u - l) / 2 + 1) u
      · simp only [if_neg hc]
        exact ih l (l + (u - l) / 2)
    · rw [v4LoopF_stop keyAt tgt _ l u h, blLoopF_stop keyAt tgt _ l u h]

/-- The reference loop needs at most `u - l` iterations: any two fuels at
least `u - l` give the same result. -/
theorem brLoopF_fuel (keyAt : Nat → α) (tgt : α) :
    ∀ fuel fuel2 l u, u - l ≤ fuel → u - l ≤ fuel2 →
      brLoopF keyAt tgt fuel l u = brLoopF keyAt tgt fuel2 l u := by
  intro fuel
  induction fuel with
  | zero =>
    intro fuel2 l u h1 h2
    have h : ¬ l < u := by omega
    rw [brLoopF_stop keyAt tgt _ l u h, brLoopF_stop keyAt tgt _ l u h]
  | succ fuel ih =>
    intro fuel2 l u h1 h2
    by_cases h : l < u
    · obtain ⟨f2, rfl⟩ : ∃ f2, fuel2 = f2 + 1 := ⟨fuel2 - 1, by omega⟩
      by_cases hc : tgt < keyAt ((l + u) / 2)
      · simp only [brLoopF, if_pos h, if_pos hc]
        exact ih f2 l ((l + u) / 2) (by omega) (by omega)
      · simp only [brLoopF, if_pos h, if_neg hc]
        exact ih f2 ((l + u) / 2 + 1) u (by omega) (by omega)
    · rw [brLoopF_stop keyAt tgt _ l u h, brLoopF_stop keyAt tgt _ l u h]

/-- The branchless loop needs at most `u - l` iterations. -/
theorem blLoopF_fuel (keyAt : Nat → α) (tgt : α) (fuel fuel2 l u : Nat)
    (h1 : u - l ≤ fuel) (h2 : u - l ≤ fuel2) :
    blLoopF keyAt tgt fuel l u = blLoopF keyAt tgt fuel2 l u := by
  rw [blLoopF_eq_brLoopF, blLoopF_eq_brLoopF]
  exact brLoopF_fuel keyAt tgt fuel fuel2 l u h1 h2

/-- The v4 loop needs at most `u - l` iterations. -/
theorem v4LoopF_fuel (keyAt : Nat → α) (tgt : α) (fuel fuel2 l u : Nat)
    (h1 : u - l ≤ fuel) (h2 : u - l ≤ fuel2) :
    v4LoopF keyAt tgt fuel l u = v4LoopF keyAt tgt fuel2 l u := by
  rw [v4LoopF_eq_blLoopF, v4LoopF_eq_blLoopF]
  exact blLoopF_fuel keyAt tgt fuel fuel2 l u h1 h2

/-- The unrolled v3 loop needs at most `u - l` iterations. -/
theorem v3LoopF_fuel (keyAt : Nat → α) (tgt : α) :
    ∀ fuel fuel2 l u, u - l ≤ fuel → u - l ≤ fuel2 →
      v3LoopF keyAt tgt fuel l u = v3LoopF keyAt tgt fuel2 l u := by
  intro fuel
  induction fuel with
  | zero =>
    intro fuel2 l u h1 h2
    have h : ¬ l < u := by omega
    rw [v3LoopF_stop keyAt tgt _ l u h, v3LoopF_stop keyAt tgt _ l u h]
  | succ fuel ih =>
    intro fuel2 l u h1 h2
    by_cases h4 : u - l > 4
    · obtain ⟨f2, rfl⟩ : ∃ f2, fuel2 = f2 + 1 := ⟨fuel2 - 1, by omega⟩
      by_cases hc1 : tgt < keyAt (l + (u - l) / 4)
      · simp only [v3LoopF, if_pos h4, if_pos hc1]
        exact ih f2 l (l + (u - l) / 4) (by omega) (by omega)
      · by_cases hc2 : tgt < keyAt (l + (u - l) / 2)
        · simp only [v3LoopF, if_pos h4, if_neg hc1, if_pos hc2]
          exact ih f2 (l + (u - l) / 4 + 1) (l + (u - l) / 2) (by omega) (by omega)
        · by_cases hc3 : tgt < keyAt (u - (u - l) / 4)
          · simp only [v3LoopF, if_pos h4, if_neg hc1, if_neg hc2, if_pos hc3]
            exact ih f2 (l + (u - l) / 2 + 1) (u - (u - l) / 4) (by omega) (by omega)
          · simp only [v3LoopF, if_pos h4, if_neg hc1, if_neg hc2, if_neg hc3]
            exact ih f2 (u - (u - l) / 4 + 1) u (by omega) (by omega)
    · by_cases h : l < u
      · obtain ⟨f2, rfl⟩ : ∃ f2, fuel2 = f2 + 1 := ⟨fuel2 - 1, by omega⟩
        simp only [v3LoopF, if_neg h4]
      · rw [v3LoopF_stop keyAt tgt _ l u h, v3LoopF_stop keyAt tgt _ l u h]

theorem isBR_unique (keyAt : Nat → α) (tgt : α) (l u r1 r2 : Nat)
    (h1 : isBR keyAt tgt l u r1) (h2 : isBR keyAt tgt l u r2) : r1 = r2 := by
  obtain ⟨a1, b1, c1, d1⟩ := h1
  obtain ⟨a2, b2, c2, d2⟩ := h2
  by_contra hne
  rcases Nat.lt_or_ge r1 r2 with h | h
  · exact absurd (d2 r1 a1 h) (not_le.mpr (c1 r1 (le_refl r1) (lt_of_lt_of_le h b2)))
  · have h : r2 < r1 := lt_of_le_of_ne h fun e => hne e.symm
    exact absurd (d1 r2 a2 h) (not_le.mpr (c2 r2 (le_refl r2) (lt_of_lt_of_le h b1)))

/-- On a sub-range with non-decreasing keys the reference loop computes the
spec's insertion point. -/
theorem brLoopF_isBR (keyAt : Nat → α) (tgt : α) :
    ∀ fuel l u, u - l ≤ fuel → l ≤ u → sortedOn keyAt l u →
      isBR keyAt tgt l u (brLoopF keyAt tgt fuel l u) := by
  intro fuel
  induction fuel with
  | zero =>
    intro l u hf hlu hs
    have hu : ¬ l < u := by omega
    exact ⟨le_refl l, hlu, fun j hj hju => absurd (lt_of_le_of_lt hj hju) hu,
      fun j hj hju => absurd (lt_of_le_of_lt hj hju) (lt_irrefl l)⟩
  | succ fuel ih =>
    intro l u hf hlu hs
    by_cases h : l < u
    · have hml : l ≤ (l + u) / 2 := by omega
      have hmu : (l + u) / 2 < u := by omega
      by_cases hc : tgt < keyAt ((l + u) / 2)
      · simp only [brLoopF, if_pos h, if_pos hc]
        obtain ⟨p1, p2, p3, p4⟩ :=
          ih l ((l + u) / 2) (by omega) hml
            (sortedOn_mono keyAt l u l ((l + u) / 2) (le_refl l) (le_of_lt hmu) hs)
        refine ⟨p1, le_trans p2 (le_of_lt hmu), ?_, p4⟩
        intro j hj hju
        by_cases hjm : j < (l + u) / 2
        · exact p3 j hj hjm
        · exact lt_of_lt_of_le hc (hs j hju ((l + u) / 2) (not_lt.mp hjm) hml)
      · have hkm : keyAt ((l + u) / 2) ≤ tgt := not_lt.mp hc
        simp only [brLoopF, if_pos h, if_neg hc]
        obtain ⟨p1, p2, p3, p4⟩ :=
          ih ((l + u) / 2 + 1) u (by omega) (by omega)
            (sortedOn_mono keyAt l u ((l + u) / 2 + 1) u (by omega) (le_refl u) hs)
        refine ⟨le_trans (by omega) p1, p2, p3, ?_⟩
        intro j hj hjr
        by_cases hjm : (l + u) / 2 + 1 ≤ j
        · exact p4 j hjm hjr
        · exact le_trans (hs ((l + u) / 2) hmu j (by omega) hj) hkm
    · rw [brLoopF_stop keyAt tgt _ l u h]
      exact ⟨le_refl l, hlu, fun j hj hju => absurd (lt_of_le_of_lt hj hju) h,
        fun j hj hju => absurd (lt_of_le_of_lt hj hju) (lt_irrefl l)⟩

/-- On a sub-range with non-decreasing keys the unrolled v3 loop also
computes the spec's insertion point. -/
theorem v3LoopF_isBR (keyAt : Nat → α) (tgt : α) :
    ∀ fuel l u, u - l ≤ fuel → l ≤ u → sortedOn keyAt l u →
      isBR keyAt tgt l u (v3LoopF keyAt tgt fuel l u) := by
  intro fuel
  induction fuel with
  | zero =>
    intro l u hf hlu hs
    have hu : ¬ l < u := by omega
    exact ⟨le_refl l, hlu, fun j hj hju => absurd (lt_of_le_of_lt hj hju) hu,
      fun j hj hju => absurd (lt_of_le_of_lt hj hju) (lt_irrefl l)⟩
  | succ fuel ih =>
    intro l u hf hlu hs
    by_cases h4 : u - l > 4
    · have hm1l : l < l + (u - l) / 4 := by omega
      have hm12 : l + (u - l) / 4 ≤ l + (u - l) / 2 := by omega
      have hm23 : l + (u - l) / 2 ≤ u - (u - l) / 4 := by omega
      have hm3u : u - (u - l) / 4 < u := by omega
      by_cases hc1 : tgt < keyAt (l + (u - l) / 4)
      · simp only [v3LoopF, if_pos h4, if_pos hc1]
        obtain ⟨p1, p2, p3, p4⟩ :=
          ih l (l + (u - l) / 4) (by omega) (by omega)
            (sortedOn_mono keyAt l u l (l + (u - l) / 4) (le_refl l) (by omega) hs)
        refine ⟨p1, by omega, ?_, p4⟩
        intro j hj hju
        by_cases hjm : j < l + (u - l) / 4
        · exact p3 j hj hjm
        · exact lt_of_lt_of_le hc1 (hs j hju (l + (u - l) / 4) (not_lt.mp hjm) (by omega))
      · have hk1 : keyAt (l + (u - l) / 4) ≤ tgt := not_lt.mp hc1
        by_cases hc2 : tgt < keyAt (l + (u - l) / 2)
        · simp only [v3LoopF, if_pos h4, if_neg hc1, if_pos hc2]
          obtain ⟨p1, p2, p3, p4⟩ :=
            ih (l + (u - l) / 4 + 1) (l + (u - l) / 2) (by omega) (by omega)
              (sortedOn_mono keyAt l u (l + (u - l) / 4 + 1) (l + (u - l) / 2)
                (by omega) (by omega) hs)
          refine ⟨by omega, by omega, ?_, ?_⟩
          · intro j hj hju
            by_cases hjm : j < l + (u - l) / 2
            · exact p3 j hj hjm
            · exact lt_of_lt_of_le hc2 (hs j hju (l + (u - l) / 2) (not_lt.mp hjm) (by omega))
          · intro j hj hjr
            by_cases hjm : l + (u - l) / 4 + 1 ≤ j
            · exact p4 j hjm hjr
            · exact le_trans (hs (l + (u - l) / 4) (by omega) j (by omega) hj) hk1
        · have hk2 : keyAt (l + (u - l) / 2) ≤ tgt := not_lt.mp hc2
          by_cases hc3 : tgt < keyAt (u - (u - l) / 4)
          · simp only [v3LoopF, if_pos h4, if_neg hc1, if_neg hc2, if_pos hc3]
            obtain ⟨p1, p2, p3, p4⟩ :=
              ih (l + (u - l) / 2 + 1) (u - (u - l) / 4) (by omega) (by omega)
                (sortedOn_mono keyAt l u (l + (u - l) / 2 + 1) (u - (u - l) / 4)
                  (by omega) (by omega) hs)
            refine ⟨by omega, by omega, ?_, ?_⟩
            · intro j hj hju
              by_cases hjm : j < u - (u - l) / 4
              · exact p3 j hj hjm
              · exact lt_of_lt_of_le hc3 (hs j hju (u - (u - l) / 4) (not_lt.mp hjm) (by omega))
            · intro j hj hjr
              by_cases hjm : l + (u - l) / 2 + 1 ≤ j
              · exact p4 j hjm hjr
              · exact le_trans (hs (l + (u - l) / 2) (by omega) j (by omega) hj) hk2
          · have hk3 : keyAt (u - (u - l) / 4) ≤ tgt := not_lt.mp hc3
            simp only [v3LoopF, if_pos h4, if_neg hc1, if_neg hc2, if_neg hc3]
            obtain ⟨p1, p2, p3, p4⟩ :=
              ih (u - (u - l) / 4 + 1) u (by omega) (by omega)
                (sortedOn_mono keyAt l u (u - (u - l) / 4 + 1) u (by omega) (le_refl u) hs)
            refine ⟨by omega, p2, p3, ?_⟩
            intro j hj hjr
            by_cases hjm : u - (u - l) / 4 + 1 ≤ j
            · exact p4 j hjm hjr
            · exact le_trans (hs (u - (u - l) / 4) (by omega) j (by omega) hj) hk3
    · have hble : blLoopF keyAt tgt (u - l) l u = brLoopF keyAt tgt (u - l) l u :=
        blLoopF_eq_brLoopF keyAt tgt (u - l) l u
      simp only [v3LoopF, if_neg h4, hble]
      exact brLoopF_isBR keyAt tgt (u - l) l u (le_refl _) hlu hs

/-- On a sorted sub-range v3 agrees with the reference loop. -/
theorem v3Loop_eq_brLoop (keyAt : Nat → α) (tgt : α) (l u : Nat)
    (hs : sortedOn keyAt l u) : v3Loop keyAt tgt l u = brLoop keyAt tgt l u := by
  by_cases hlu : l ≤ u
  · exact isBR_unique keyAt tgt l u _ _
      (v3LoopF_isBR keyAt tgt (u - l) l u (le_refl _) hlu hs)
      (brLoopF_isBR keyAt tgt (u - l) l u (le_refl _) hlu hs)
  · have h : ¬ l < u := by omega
    rw [v3Loop, brLoop, v3LoopF_stop keyAt tgt _ l u h, brLoopF_stop keyAt tgt _ l u h]

/-- The reference loop only inspects keys at indices inside `[l, u)`. -/
theorem brLoopF_ext (tgt : α) :
    ∀ fuel l u (keyA keyB : Nat → α), (∀ i, i < u → l ≤ i → keyA i = keyB i) →
      brLoopF keyA tgt fuel l u = brLoopF keyB tgt fuel l u := by
  intro fuel
  induction fuel with
  | zero => intro l u keyA keyB hagree; rfl
  | succ fuel ih =>
    intro l u keyA keyB hagree
    by_cases h : l < u
    · have hm : keyA ((l + u) / 2) = keyB ((l + u) / 2) := hagree _ (by omega) (by omega)
      by_cases hc : tgt < keyB ((l + u) / 2)
      · simp only [brLoopF, if_pos h, hm, if_pos hc]
        exact ih l ((l + u) / 2) keyA keyB fun i hiu hli => hagree i (by omega) hli
      · simp only [brLoopF, if_pos h, hm, if_neg hc]
        exact ih ((l + u) / 2 + 1) u keyA keyB fun i hiu hli => hagree i hiu (by omega)
    · simp only [brLoopF, if_neg h]

/-- The branchless loop only inspects keys at indices inside `[l, u)`. -/
theorem blLoopF_ext (tgt : α) (fuel l u : Nat) (keyA keyB : Nat → α)
    (hagree : ∀ i, i < u → l ≤ i → keyA i = keyB i) :
    blLoopF keyA tgt fuel l u = blLoopF keyB tgt fuel l u := by
  rw [blLoopF_eq_brLoopF, blLoopF_eq_brLoopF]
  exact brLoopF_ext tgt fuel l u keyA keyB hagree

/-- The v4 loop only inspects keys at indices inside `[l, u)`. -/
theorem v4LoopF_ext (tgt : α) (fuel l u : Nat) (keyA keyB : Nat → α)
    (hagree : ∀ i, i < u → l ≤ i → keyA i = keyB i) :
    v4LoopF keyA tgt fuel l u = v4LoopF keyB tgt fuel l u := by
  rw [v4LoopF_eq_blLoopF, v4LoopF_eq_blLoopF]
  exact blLoopF_ext tgt fuel l u keyA keyB hagree

/-- The unrolled v3 loop only inspects keys at indices inside `[l, u)`. -/
theorem v3LoopF_ext (tgt : α) :
    ∀ fuel l u (keyA keyB : Nat → α), (∀ i, i < u → l ≤ i → keyA i = keyB i) →
      v3LoopF keyA tgt fuel l u = v3LoopF keyB tgt fuel l u := by
  intro fuel
  induction fuel with
  | zero => intro l u keyA keyB hagree; rfl
  | succ fuel ih =>
    intro l u keyA keyB hagree
    by_cases h4 : u - l > 4
    · have hm1 : keyA (l + (u - l) / 4) = keyB (l + (u - l) / 4) :=
        hagree _ (by omega) (by omega)
      have hm2 : keyA (l + (u - l) / 2) = keyB (l + (u - l) / 2) :=
        hagree _ (by omega) (by omega)
      have hm3 : keyA (u - (u - l) / 4) = keyB (u - (u - l) / 4) :=
        hagree _ (by omega) (by omega)
      by_cases hc1 : tgt < keyB (l + (u - l) / 4)
      · simp only [v3LoopF, if_pos h4, hm1, if_pos hc1]
        exact ih l (l + (u - l) / 4) keyA keyB fun i hiu hli => hagree i (by omega) hli
      · by_cases hc2 : tgt < keyB (l + (u - l) / 2)
        · simp only [v3LoopF, if_pos h4, hm1, hm2, if_neg hc1, if_pos hc2]
          exact ih (l + (u - l) / 4 + 1) (l + (u - l) / 2) keyA keyB
            fun i hiu hli => hagree i (by omega) (by omega)
        · by_cases hc3 : tgt < keyB (u - (u - l) / 4)
          · simp only [v3LoopF, if_pos h4, hm1, hm2, hm3, if_neg hc1, if_neg hc2, if_pos hc3]
            exact ih (l + (u - l) / 2 + 1) (u - (u - l) / 4) keyA keyB
              fun i hiu hli => hagree i (by omega) (by omega)
          · simp only [v3LoopF, if_pos h4, hm1, hm2, hm3, if_neg hc1, if_neg hc2, if_neg hc3]
            exact ih (u - (u - l) / 4 + 1) u keyA keyB
              fun i hiu hli => hagree i hiu (by omega)
    · simp only [v3LoopF, if_neg h4]
      exact blLoopF_ext tgt (u - l) l u keyA keyB hagree

/-- Counting the indices below `n` whose predicate agrees with `j < r`. -/
theorem countP_range_eq (p : Nat → Bool) :
    ∀ n r, r ≤ n → (∀ j, j < n → p j = decide (j < r)) →
      (List.range n).countP p = r := by
  intro n
  induction n with
  | zero => intro r hr hp; simp at hr; simp [hr]
  | succ n ih =>
    intro r hr hp
    rw [List.range_succ, List.countP_append]
    by_cases hrn : r ≤ n
    · have h1 : (List.range n).countP p = r :=
        ih r hrn fun j hj => hp j (by omega)
      have h2 : p n = false := by
        have := hp n (by omega)
        simpa [Nat.not_lt.mpr hrn] using this
      simp [h1, h2, List.countP_cons]
    · have hrn2 : r = n + 1 := by omega
      subst hrn2
      have h1 : (List.range n).countP p = n :=
        ih n (le_refl n) fun j hj => by
          rw [hp j (by omega)]
          simp [hj, Nat.lt_succ_of_lt hj]
      have h2 : p n = true := by
        have := hp n (by omega)
        simpa using this
      simp [h1, h2, List.countP_cons]

theorem blLoop_eq_brLoop (keyAt : Nat → α) (tgt : α) (l u : Nat) :
    blLoop keyAt tgt l u = brLoop keyAt tgt l u :=
  blLoopF_eq_brLoopF keyAt tgt (u - l) l u

theorem v4Loop_eq_brLoop (keyAt : Nat → α) (tgt : α) (l u : Nat) :
    v4Loop keyAt tgt l u = brLoop keyAt tgt l u := by
  rw [v4Loop, v4LoopF_eq_blLoopF]
  exact blLoopF_eq_brLoopF keyAt tgt (u - l) l u

/-- C1 counterexample: on a key sequence that is NOT non-decreasing over the
searched sub-range, `bisect_right_optimized_v3` (which probes the quarter
points `mid1`/`mid3` in addition to the midpoint) returns a different index
(1) than `bisect_right_original` (4), so the claim as stated — equality for
every sequence, key function and bounds — is false. -/
theorem c1_counterexample :
    bisect_right_optimized_v3 5 exKey (0 : Int) none (some 0) none
      ≠ bisect_right_original 5 exKey (0 : Int) none (some 0) none := by
  decide

/-- C1 (amended): `bisect_right_optimized_v2` and `bisect_right_optimized_v4`
return exactly the same result as `bisect_right_original` for every
sequence, target, key function and bounds; `bisect_right_optimized_v3` does
so whenever the key images over the searched sub-range
`[lower_eff, upper_eff)` are non-decreasing — which covers every input
class the spec lists (empty sub-range, all-equal keys, target below/above
all keys, target equal to one or many keys, `lower == upper`). -/
theorem c1_variants_match_reference (n : Nat) (keyAt : Nat → α) (tgt : α)
    (es : Option ErrorStatus) (lower upper : Option Int) :
    bisect_right_optimized_v2 n keyAt tgt es lower upper
        = bisect_right_original n keyAt tgt es lower upper
    ∧ bisect_right_optimized_v4 n keyAt tgt es lower upper
        = bisect_right_original n keyAt tgt es lower upper
    ∧ (sortedOn keyAt (lowEff lower) (upEff n upper) →
        bisect_right_optimized_v3 n keyAt tgt es lower upper
          = bisect_right_original n keyAt tgt es lower upper) := by
  match lower with
  | none => exact ⟨rfl, rfl, fun _ => rfl⟩
  | some l =>
    by_cases hneg : l < 0
    · refine ⟨?_, ?_, fun _ => ?_⟩ <;>
        simp only [bisect_right_original, bisect_right_optimized_v2,
          bisect_right_optimized_v3, bisect_right_optimized_v4, if_pos hneg]
    · refine ⟨?_, ?_, fun hs => ?_⟩
      · simp only [bisect_right_optimized_v2, bisect_right_original, if_neg hneg,
          blLoop_eq_brLoop]
      · simp only [bisect_right_optimized_v4, bisect_right_original, if_neg hneg,
          v4Loop_eq_brLoop]
      · have hs2 : sortedOn keyAt l.toNat (upper.getD (n : Int)).toNat := by
          simpa [lowEff, upEff] using hs
        simp only [bisect_right_optimized_v3, bisect_right_original, if_neg hneg,
          v3Loop_eq_brLoop keyAt tgt l.toNat (upper.getD (n : Int)).toNat hs2]

/-- C1 witness: on a sorted key sequence, v3 agrees with the reference. -/
theorem c1_variants_match_reference_witness :
    bisect_right_optimized_v3 6 wKey (4 : Int) (some esOK) (some 0) none
      = bisect_right_original 6 wKey (4 : Int) (some esOK) (some 0) none :=
  (c1_variants_match_reference 6 wKey 4 (some esOK) (some 0) none).2.2 (by decide)

/-- C2: on a sub-range with non-decreasing key images, `bisect_right`
(reference implementation) returns the smallest index `i` in
`[lower, upper_eff]` such that every element at index `>= i` inside the
sub-range has key greater than the target; with default bounds
(`lower = 0`, `upper` absent, hence `upper_eff = n`) the result equals the
number of indices whose key is `<=` the target. -/
theorem c2_bisect_right_insertion_point (n : Nat) (keyAt : Nat → α) (tgt : α)
    (es : Option ErrorStatus) (l : Int) (upper : Option Int) (hl : 0 ≤ l)
    (hlu : l.toNat ≤ upEff n upper)
    (hs : sortedOn keyAt l.toNat (upEff n upper)) :
    ∃ rN : Nat,
      bisect_right_original n keyAt tgt es (some l) upper = some ((rN : Int), es)
      ∧ l.toNat ≤ rN
      ∧ rN ≤ upEff n upper
      ∧ (∀ j, rN ≤ j → j < upEff n upper → tgt < keyAt j)
      ∧ (∀ i, l.toNat ≤ i → (∀ j, i ≤ j → j < upEff n upper → tgt < keyAt j) → rN ≤ i)
      ∧ (l = 0 → upper = none →
          rN = (List.range n).countP fun j => decide (keyAt j ≤ tgt)) := by
  have hneg : ¬ l < 0 := not_lt.mpr hl
  obtain ⟨p1, p2, p3, p4⟩ :=
    brLoopF_isBR keyAt tgt (upEff n upper - l.toNat) l.toNat (upEff n upper)
      (le_refl _) hlu hs
  refine ⟨brLoop keyAt tgt l.toNat (upEff n upper), ?_, p1, p2, p3, ?_, ?_⟩
  · simp only [bisect_right_original, if_neg hneg, upEff]
  · intro i hi hP
    by_contra hcon
    push_neg at hcon
    exact absurd (hP i (le_refl i) (lt_of_lt_of_le hcon p2))
      (not_lt.mpr (p4 i hi hcon))
  · intro hl0 hupn
    subst hl0
    subst hupn
    refine (countP_range_eq _ n (brLoop keyAt tgt (Int.toNat 0) (upEff n none))
      (le_trans p2 (le_of_eq (by simp [upEff]))) ?_).symm
    intro j hj
    by_cases hjr : j < brLoop keyAt tgt (Int.toNat 0) (upEff n none)
    · have hk : keyAt j ≤ tgt := p4 j (Nat.zero_le j) hjr
      show decide (keyAt j ≤ tgt)
          = decide (j < brLoop keyAt tgt (Int.toNat 0) (upEff n none))
      rw [decide_eq_true hk, decide_eq_true hjr]
    · have hk : tgt < keyAt j := p3 j (not_lt.mp hjr) (by simpa [upEff] using hj)
      show decide (keyAt j ≤ tgt)
          = decide (j < brLoop keyAt tgt (Int.toNat 0) (upEff n none))
      rw [decide_eq_false (not_le.mpr hk), decide_eq_false hjr]

/-- C2 witness at a concrete sorted sequence and target. -/
theorem c2_witness :
    ∃ rN : Nat,
      bisect_right_original 4 wKey (2 : Int) (some esOK) (some 0) none
          = some ((rN : Int), some esOK)
      ∧ 0 ≤ rN
      ∧ rN ≤ upEff 4 none
      ∧ (∀ j, rN ≤ j → j < upEff 4 none → (2 : Int) < wKey j)
      ∧ (∀ i, 0 ≤ i → (∀ j, i ≤ j → j < upEff 4 none → (2 : Int) < wKey j) → rN ≤ i)
      ∧ ((0 : Int) = 0 → (none : Option Int) = none →
          rN = (List.range 4).countP fun j => decide (wKey j ≤ 2)) :=
  c2_bisect_right_insertion_point 4 wKey 2 (some esOK) 0 none (by decide)
    (by decide) (by decide)

/-- C4: a negative `lower_search_bound` makes every bisection variant return
the fallback `0`; a supplied error handle is then populated with the
`INTERNAL_ERROR` kind (the spec's invalid-argument condition for this core)
and the message `lower_search_bound must be non-negative`, while a missing
handle keeps the failure silent; with a non-negative bound the handle is
returned untouched. -/
theorem c4_lower_bound_guard (n : Nat) (keyAt : Nat → α) (tgt : α)
    (s : ErrorStatus) (es : Option ErrorStatus) (l : Int) (upper : Option Int) :
    (l < 0 →
      bisect_right_original n keyAt tgt (some s) (some l) upper
          = some (0, some (ErrorStatus.mk Outcome.INTERNAL_ERROR
              "lower_search_bound must be non-negative"))
      ∧ bisect_right_optimized_v2 n keyAt tgt (some s) (some l) upper
          = some (0, some (ErrorStatus.mk Outcome.INTERNAL_ERROR
              "lower_search_bound must be non-negative"))
      ∧ bisect_right_optimized_v3 n keyAt tgt (some s) (some l) upper
          = some (0, some (ErrorStatus.mk Outcome.INTERNAL_ERROR
              "lower_search_bound must be non-negative"))
      ∧ bisect_right_optimized_v4 n keyAt tgt (some s) (some l) upper
          = some (0, some (ErrorStatus.mk Outcome.INTERNAL_ERROR
              "lower_search_bound must be non-negative")))
    ∧ (l < 0 →
      bisect_right_original n keyAt tgt none (some l) upper = some (0, none)
      ∧ bisect_right_optimized_v2 n keyAt tgt none (some l) upper = some (0, none)
      ∧ bisect_right_optimized_v3 n keyAt tgt none (some l) upper = some (0, none)
      ∧ bisect_right_optimized_v4 n keyAt tgt none (some l) upper = some (0, none))
    ∧ (0 ≤ l →
      (∃ r, bisect_right_original n keyAt tgt es (some l) upper = some (r, es))
      ∧ (∃ r, bisect_right_optimized_v2 n keyAt tgt es (some l) upper = some (r, es))
      ∧ (∃ r, bisect_right_optimized_v3 n keyAt tgt es (some l) upper = some (r, es))
      ∧ (∃ r, bisect_right_optimized_v4 n keyAt tgt es (some l) upper = some (r, es))) := by
  refine ⟨fun hneg => ?_, fun hneg => ?_, fun hpos => ?_⟩
  · refine ⟨?_, ?_, ?_, ?_⟩ <;>
      simp [bisect_right_original, bisect_right_optimized_v2,
        bisect_right_optimized_v3, bisect_right_optimized_v4, hneg, negBoundError]
  · refine ⟨?_, ?_, ?_, ?_⟩ <;>
      simp [bisect_right_original, bisect_right_optimized_v2,
        bisect_right_optimized_v3, bisect_right_optimized_v4, hneg]
  · have hneg : ¬ l < 0 := not_lt.mpr hpos
    refine ⟨⟨((brLoop keyAt tgt l.toNat ((upper.getD (n : Int)).toNat) : Nat) : Int), ?_⟩,
      ⟨((blLoop keyAt tgt l.toNat ((upper.getD (n : Int)).toNat) : Nat) : Int), ?_⟩,
      ⟨((v3Loop keyAt tgt l.toNat ((upper.getD (n : Int)).toNat) : Nat) : Int), ?_⟩,
      ⟨((v4Loop keyAt tgt l.toNat ((upper.getD (n : Int)).toNat) : Nat) : Int), ?_⟩⟩ <;>
      simp only [bisect_right_original, bisect_right_optimized_v2,
        bisect_right_optimized_v3, bisect_right_optimized_v4, if_neg hneg]

/-- C4 witness: guard, silent-failure and untouched-handle behaviour at
concrete inputs. -/
theorem c4_witness :
    bisect_right_original 4 wKey (2 : Int) (some esOK) (some (-1)) none
        = some (0, some (ErrorStatus.mk Outcome.INTERNAL_ERROR
            "lower_search_bound must be non-negative"))
    ∧ bisect_right_original 4 wKey (2 : Int) none (some (-1)) none = some (0, none)
    ∧ (∃ r, bisect_right_original 4 wKey (2 : Int) (some esOK) (some 0) none
        = some (r, some esOK)) :=
  ⟨((c4_lower_bound_guard 4 wKey 2 esOK (some esOK) (-1) none).1 (by decide)).1,
   ((c4_lower_bound_guard 4 wKey 2 esOK (some esOK) (-1) none).2.1 (by decide)).1,
   ((c4_lower_bound_guard 4 wKey 2 esOK (some esOK) 0 none).2.2 (by decide)).1⟩

/-- C8: each iteration of the reference bisection loop probes exactly the
midpoint `lower + (upper - lower) / 2` (floor division) — the embedded
`(l + u) / 2`, i.e. `std::floor((l + u) / 2.0)`, coincides with it — and
branches on the exact total-order comparison `tgt < key(seq[mid])`, with no
tolerance. -/
theorem c8_reference_midpoint_exact_order (keyAt : Nat → α) (tgt : α)
    (fuel l u : Nat) (h : l < u) :
    brLoopF keyAt tgt (fuel + 1) l u
      = if tgt < keyAt (l + (u - l) / 2) then
          brLoopF keyAt tgt fuel l (l + (u - l) / 2)
        else brLoopF keyAt tgt fuel (l + (u - l) / 2 + 1) u := by
  have hm : (l + u) / 2 = l + (u - l) / 2 := by omega
  simp only [brLoopF, if_pos h, hm]

/-- C8 witness at concrete bounds `[0, 4)`. -/
theorem c8_witness :
    brLoopF wKey (2 : Int) 3 0 4
      = if (2 : Int) < wKey (0 + (4 - 0) / 2) then
          brLoopF wKey (2 : Int) 2 0 (0 + (4 - 0) / 2)
        else brLoopF wKey (2 : Int) 2 (0 + (4 - 0) / 2 + 1) 4 :=
  c8_reference_midpoint_exact_order wKey 2 2 0 4 (by decide)

/-- C10: every bisection variant dereferences `lower_search_bound` before
any check, so the result is defined exactly when a lower bound is present
(absent lower bound gives the undefined result `none`, any present one a
defined `some`); each search loop inspects keys only at indices inside the
searched sub-range `[a, b)` (its result is invariant under changing the key
function outside that window); and each loop terminates within `b - a`
iterations (`b - a` fuel already yields the fixed point). -/
theorem c10_totality_inbounds_termination (n : Nat) (keyA keyB : Nat → α)
    (tgt : α) (es : Option ErrorStatus) (upper : Option Int) (l : Int)
    (a b fuel : Nat) :
    (bisect_right_original n keyA tgt es none upper = none
      ∧ bisect_right_optimized_v2 n keyA tgt es none upper = none
      ∧ bisect_right_optimized_v3 n keyA tgt es none upper = none
      ∧ bisect_right_optimized_v4 n keyA tgt es none upper = none)
    ∧ ((bisect_right_original n keyA tgt es (some l) upper).isSome = true
      ∧ (bisect_right_optimized_v2 n keyA tgt es (some l) upper).isSome = true
      ∧ (bisect_right_optimized_v3 n keyA tgt es (some l) upper).isSome = true
      ∧ (bisect_right_optimized_v4 n keyA tgt es (some l) upper).isSome = true)
    ∧ ((∀ i, i < b → a ≤ i → keyA i = keyB i) →
        brLoopF keyA tgt fuel a b = brLoopF keyB tgt fuel a b
        ∧ blLoopF keyA tgt fuel a b = blLoopF keyB tgt fuel a b
        ∧ v3LoopF keyA tgt fuel a b = v3LoopF keyB tgt fuel a b
        ∧ v4LoopF keyA tgt fuel a b = v4LoopF keyB tgt fuel a b)
    ∧ (b - a ≤ fuel →
        brLoopF keyA tgt fuel a b = brLoop keyA tgt a b
        ∧ blLoopF keyA tgt fuel a b = blLoop keyA tgt a b
        ∧ v3LoopF keyA tgt fuel a b = v3Loop keyA tgt a b
        ∧ v4LoopF keyA tgt fuel a b = v4Loop keyA tgt a b) := by
  refine ⟨⟨rfl, rfl, rfl, rfl⟩, ?_, fun hagree => ?_, fun hfuel => ?_⟩
  · refine ⟨?_, ?_, ?_, ?_⟩ <;> by_cases hneg : l < 0 <;>
      simp [bisect_right_original, bisect_right_optimized_v2,
        bisect_right_optimized_v3, bisect_right_optimized_v4, hneg]
  · exact ⟨brLoopF_ext tgt fuel a b keyA keyB hagree,
      blLoopF_ext tgt fuel a b keyA keyB hagree,
      v3LoopF_ext tgt fuel a b keyA keyB hagree,
      v4LoopF_ext tgt fuel a b keyA keyB hagree⟩
  · exact ⟨brLoopF_fuel keyA tgt fuel (b - a) a b hfuel (le_refl _),
      blLoopF_fuel keyA tgt fuel (b - a) a b hfuel (le_refl _),
      v3LoopF_fuel keyA tgt fuel (b - a) a b hfuel (le_refl _),
      v4LoopF_fuel keyA tgt fuel (b - a) a b hfuel (le_refl _)⟩

/-- C10 witness: undefinedness on an absent lower bound, definedness on a
present one, key accesses confined to `[0, 6)`, and termination within
`6 - 0` iterations, at concrete inputs. -/
theorem c10_witness :
    bisect_right_original 6 wKey (2 : Int) (some esOK) none none = none
    ∧ (bisect_right_original 6 wKey (2 : Int) (some esOK) (some 0) none).isSome = true
    ∧ brLoopF wKey (2 : Int) 9 0 6 = brLoopF wKeyB (2 : Int) 9 0 6
    ∧ brLoopF wKey (2 : Int) 9 0 6 = brLoop wKey (2 : Int) 0 6 := by
  have h := c10_totality_inbounds_termination 6 wKey wKeyB (2 : Int)
    (some esOK) none 0 0 6 9
  exact ⟨h.1.1, h.2.1.1, (h.2.2.1 (by decide)).1, (h.2.2.2 (by decide)).1⟩

theorem matchesT_withMatch (c : Composable) (b : Bool) :
    matchesT (withMatch c b) = b := by
  cases c <;> rfl

theorem idOf_withMatch (c : Composable) (b : Bool) :
    idOf (withMatch c b) = idOf c := by
  cases c <;> rfl

theorem is_error_some_of_ok (s : ErrorStatus) (hs : s.outcome = Outcome.OK) :
    is_error (some s) = false := by
  simp [is_error, hs]

theorem is_error_some_of_err (e : ErrorStatus) (he : e.outcome ≠ Outcome.OK) :
    is_error (some e) = true := by
  simp [is_error, he]

theorem fcLoopF_nil (xf : Nat → ρ → ρ × Option ErrorStatus) (sh : Bool)
    (rec : Composable → Option ρ → Option ErrorStatus →
      List Nat × Option ErrorStatus)
    (sr : Option ρ) (es : Option ErrorStatus) (out : List Nat) :
    fcLoopF xf sh rec [] sr es out = (out, es) := rfl

theorem fcLoopF_cons_shallow (xf : Nat → ρ → ρ × Option ErrorStatus)
    (rec : Composable → Option ρ → Option ErrorStatus →
      List Nat × Option ErrorStatus)
    (c : Composable) (rest : List Composable) (sr : Option ρ)
    (es : Option ErrorStatus) (out : List Nat) :
    fcLoopF xf true rec (c :: rest) sr es out
      = fcLoopF xf true rec rest sr es
          (if matchesT c then out ++ [idOf c] else out) := rfl

theorem fcLoopF_cons_item (xf : Nat → ρ → ρ × Option ErrorStatus)
    (rec : Composable → Option ρ → Option ErrorStatus →
      List Nat × Option ErrorStatus)
    (i : Nat) (mi : Bool) (rest : List Composable) (sr : Option ρ)
    (es : Option ErrorStatus) (out : List Nat) :
    fcLoopF xf false rec (.item i mi :: rest) sr es out
      = fcLoopF xf false rec rest sr es (if mi then out ++ [i] else out) := rfl

theorem fcLoopF_cons_comp_none (xf : Nat → ρ → ρ × Option ErrorStatus)
    (rec : Composable → Option ρ → Option ErrorStatus →
      List Nat × Option ErrorStatus)
    (ccid : Nat) (cm : Bool) (ccs : List Composable) (rest : List Composable)
    (es : Option ErrorStatus) (out : List Nat) :
    fcLoopF xf false rec (.comp ccid cm ccs :: rest) none es out
      = (let out1 := if cm then out ++ [ccid] else out
         if is_error es then (out1, es)
         else
           let rr := rec (Composable.comp ccid cm ccs) none es
           if is_error rr.2 then (out1, rr.2)
           else fcLoopF xf false rec rest none rr.2 (out1 ++ rr.1)) := rfl

theorem fcLoopF_cons_comp_some (xf : Nat → ρ → ρ × Option ErrorStatus)
    (rec : Composable → Option ρ → Option ErrorStatus →
      List Nat × Option ErrorStatus)
    (ccid : Nat) (cm : Bool) (ccs : List Composable) (rest : List Composable)
    (r : ρ) (es : Option ErrorStatus) (out : List Nat) :
    fcLoopF xf false rec (.comp ccid cm ccs :: rest) (some r) es out
      = (let q := xf ccid r
         let es1 : Option ErrorStatus :=
           match q.2 with
           | none => es
           | some e => es.map fun _ => e
         let out1 := if cm then out ++ [ccid] else out
         if is_error es1 then (out1, es1)
         else
           let rr := rec (Composable.comp ccid cm ccs) (some q.1) es1
           if is_error rr.2 then (out1, rr.2)
           else fcLoopF xf false rec rest (some q.1) rr.2 (out1 ++ rr.1)) := rfl

theorem findChildrenF_comp_none (xf : Nat → ρ → ρ × Option ErrorStatus)
    (cir : Nat → ρ → (Nat × Nat) × Option ErrorStatus) (sh : Bool)
    (fuel cid : Nat) (m : Bool) (cs : List Composable)
    (es : Option ErrorStatus) :
    findChildrenF xf cir sh (fuel + 1) (.comp cid m cs) none es
      = fcLoopF xf sh (findChildrenF xf cir sh fuel) cs none es [] := rfl

theorem findChildrenF_comp_some (xf : Nat → ρ → ρ × Option ErrorStatus)
    (cir : Nat → ρ → (Nat × Nat) × Option ErrorStatus) (sh : Bool)
    (fuel cid : Nat) (m : Bool) (cs : List Composable) (r : ρ)
    (es : Option ErrorStatus) :
    findChildrenF xf cir sh (fuel + 1) (.comp cid m cs) (some r) es
      = (let q := cir cid r
         let es1 : Option ErrorStatus :=
           match q.2 with
           | none => es
           | some e => es.map fun _ => e
         let kids : List Composable :=
           match q.2 with
           | none => (cs.drop q.1.1).take (q.1.2 - q.1.1)
           | some _ => []
         if is_error es1 then ([], es1)
         else fcLoopF xf sh (findChildrenF xf cir sh fuel) kids (some r) es1 []) := rfl

theorem csize_comp (cid : Nat) (m : Bool) (cs : List Composable) :
    csize (.comp cid m cs) = csizeL cs + 1 := rfl

/-- `findChildrenF` never looks at the type-filter outcome of the node it
is invoked on: only the children are examined. -/
theorem findChildrenF_withMatch (xf : Nat → ρ → ρ × Option ErrorStatus)
    (cir : Nat → ρ → (Nat × Nat) × Option ErrorStatus) (sh : Bool)
    (fuel cid : Nat) (b b2 : Bool) (cs : List Composable) (sr : Option ρ)
    (es : Option ErrorStatus) :
    findChildrenF xf cir sh fuel (.comp cid b cs) sr es
      = findChildrenF xf cir sh fuel (.comp cid b2 cs) sr es := by
  cases fuel <;> rfl

/-- The accumulator of the `find_children` loop is a pure prefix of the
result. -/
theorem fcLoopF_out (xf : Nat → ρ → ρ × Option ErrorStatus) (sh : Bool)
    (rec : Composable → Option ρ → Option ErrorStatus →
      List Nat × Option ErrorStatus) :
    ∀ (lst : List Composable) (sr : Option ρ) (es : Option ErrorStatus)
      (out : List Nat),
      fcLoopF xf sh rec lst sr es out
        = (out ++ (fcLoopF xf sh rec lst sr es []).1,
           (fcLoopF xf sh rec lst sr es []).2) := by
  intro lst
  induction lst with
  | nil => intro sr es out; simp [fcLoopF_nil]
  | cons c rest ih =>
    intro sr es out
    cases sh with
    | true =>
      cases hm : matchesT c with
      | true =>
        simp only [fcLoopF_cons_shallow, hm, if_true, List.nil_append]
        rw [ih sr es (out ++ [idOf c]), ih sr es [idOf c]]
        simp
      | false =>
        simp only [fcLoopF_cons_shallow, hm, Bool.false_eq_true, if_false]
        exact ih sr es out
    | false =>
      match c with
      | .item i mi =>
        cases hm : mi with
        | true =>
          simp only [fcLoopF_cons_item, hm, if_true, List.nil_append]
          rw [ih sr es (out ++ [i]), ih sr es [i]]
          simp
        | false =>
          simp only [fcLoopF_cons_item, hm, Bool.false_eq_true, if_false]
          exact ih sr es out
      | .comp ccid cm ccs =>
        match sr with
        | none =>
          simp only [fcLoopF_cons_comp_none]
          cases hE : is_error es with
          | true =>
            cases hm : cm <;> simp [hm]
          | false =>
            cases hR : is_error (rec (Composable.comp ccid cm ccs) none es).2 with
            | true =>
              cases hm : cm <;> subst hm <;> simp [hE, hR]
            | false =>
              cases hm : cm <;> subst hm <;> simp only [hE, hR, Bool.false_eq_true,
                if_false, if_true, List.nil_append]
              · rw [ih none (rec (Composable.comp ccid false ccs) none es).2
                    (out ++ (rec (Composable.comp ccid false ccs) none es).1),
                  ih none (rec (Composable.comp ccid false ccs) none es).2
                    (rec (Composable.comp ccid false ccs) none es).1]
                simp
              · rw [ih none (rec (Composable.comp ccid true ccs) none es).2
                    (out ++ [ccid] ++ (rec (Composable.comp ccid true ccs) none es).1),
                  ih none (rec (Composable.comp ccid true ccs) none es).2
                    ([ccid] ++ (rec (Composable.comp ccid true ccs) none es).1)]
                simp
        | some r =>
          simp only [fcLoopF_cons_comp_some]
          cases hE : is_error
              (match (xf ccid r).2 with
               | none => es
               | some e => es.map fun _ => e) with
          | true =>
            cases hm : cm <;> simp [hm, hE]
          | false =>
            cases hm : cm <;> subst hm
            · cases hR : is_error (rec (Composable.comp ccid false ccs)
                  (some (xf ccid r).1)
                  (match (xf ccid r).2 with
                   | none => es
                   | some e => es.map fun _ => e)).2 with
              | true => simp [hE, hR]
              | false =>
                simp only [hE, hR, Bool.false_eq_true, if_false, List.nil_append]
                rw [ih (some (xf ccid r).1) _
                    (out ++ (rec (Composable.comp ccid false ccs) (some (xf ccid r).1)
                      (match (xf ccid r).2 with
                       | none => es
                       | some e => es.map fun _ => e)).1),
                  ih (some (xf ccid r).1) _
                    (rec (Composable.comp ccid false ccs) (some (xf ccid r).1)
                      (match (xf ccid r).2 with
                       | none => es
                       | some e => es.map fun _ => e)).1]
                simp
            · cases hR : is_error (rec (Composable.comp ccid true ccs)
                  (some (xf ccid r).1)
                  (match (xf ccid r).2 with
                   | none => es
                   | some e => es.map fun _ => e)).2 with
              | true => simp [hE, hR]
              | false =>
                simp only [hE, hR, Bool.false_eq_true, if_false, if_true,
                  List.nil_append]
                rw [ih (some (xf ccid r).1) _
                    (out ++ [ccid] ++ (rec (Composable.comp ccid true ccs)
                      (some (xf ccid r).1)
                      (match (xf ccid r).2 with
                       | none => es
                       | some e => es.map fun _ => e)).1),
                  ih (some (xf ccid r).1) _
                    ([ccid] ++ (rec (Composable.comp ccid true ccs)
                      (some (xf ccid r).1)
                      (match (xf ccid r).2 with
                       | none => es
                       | some e => es.map fun _ => e)).1)]
                simp

/-- A shallow search is exactly a filter of the visited children: no
recursion, no effect on the error handle. -/
theorem fcLoopF_shallow (xf : Nat → ρ → ρ × Option ErrorStatus)
    (rec : Composable → Option ρ → Option ErrorStatus →
      List Nat × Option ErrorStatus) :
    ∀ (lst : List Composable) (sr : Option ρ) (es : Option ErrorStatus)
      (out : List Nat),
      fcLoopF xf true rec lst sr es out
        = (out ++ (lst.filter matchesT).map idOf, es) := by
  intro lst
  induction lst with
  | nil => intro sr es out; simp [fcLoopF_nil]
  | cons c rest ih =>
    intro sr es out
    rw [fcLoopF_cons_shallow, ih]
    by_cases hm : matchesT c <;> simp [hm, List.filter_cons]

/-- C5: a shallow `find_children` returns exactly the direct children that
satisfy the type filter `T`, in order — all of `children` when no search
range is given, the `children_in_range` narrowing (the slice
`children[first, last)`) when one is — and never anything from a nested
composition's subtree. -/
theorem c5_shallow_direct_children (xf : Nat → ρ → ρ × Option ErrorStatus)
    (cir : Nat → ρ → (Nat × Nat) × Option ErrorStatus) (cid : Nat) (m : Bool)
    (cs : List Composable) (es : Option ErrorStatus) :
    find_children xf cir (.comp cid m cs) none es true
        = ((cs.filter matchesT).map idOf, es)
    ∧ (∀ (r : ρ) (f l : Nat), cir cid r = ((f, l), none) → is_error es = false →
        find_children xf cir (.comp cid m cs) (some r) es true
          = ((((cs.drop f).take (l - f)).filter matchesT).map idOf, es)) := by
  constructor
  · show findChildrenF xf cir true (csize (Composable.comp cid m cs))
        (Composable.comp cid m cs) none es = _
    rw [csize_comp, findChildrenF_comp_none, fcLoopF_shallow]
    simp
  · intro r f l hcir hes
    show findChildrenF xf cir true (csize (Composable.comp cid m cs))
        (Composable.comp cid m cs) (some r) es = _
    rw [csize_comp, findChildrenF_comp_some]
    simp only [hcir, hes, Bool.false_eq_true, if_false, fcLoopF_shallow]
    simp

/-- C9: flipping a child's type-filter outcome from satisfied to not
satisfied removes exactly that child's own entry from the walk's result;
everything else — the entries of every other node and the final contents
of the error handle — is unchanged, so the only effect of the filter is
omission, never an error. -/
theorem c9_type_filter_only_omits (xf : Nat → ρ → ρ × Option ErrorStatus)
    (cir : Nat → ρ → (Nat × Nat) × Option ErrorStatus) (sh : Bool) (fuel : Nat)
    (c : Composable) (rest : List Composable) (sr : Option ρ)
    (es : Option ErrorStatus) :
    fcLoopF xf sh (findChildrenF xf cir sh fuel) (withMatch c true :: rest) sr es []
      = (idOf c
          :: (fcLoopF xf sh (findChildrenF xf cir sh fuel)
                (withMatch c false :: rest) sr es []).1,
         (fcLoopF xf sh (findChildrenF xf cir sh fuel)
            (withMatch c false :: rest) sr es []).2) := by
  cases sh with
  | true =>
    rw [fcLoopF_shallow, fcLoopF_shallow]
    simp [List.filter_cons, matchesT_withMatch, idOf_withMatch]
  | false =>
    match c with
    | .item i mi =>
      have e1 : fcLoopF xf false (findChildrenF xf cir false fuel)
          (withMatch (Composable.item i mi) true :: rest) sr es []
            = fcLoopF xf false (findChildrenF xf cir false fuel) rest sr es [i] :=
        rfl
      have e2 : fcLoopF xf false (findChildrenF xf cir false fuel)
          (withMatch (Composable.item i mi) false :: rest) sr es []
            = fcLoopF xf false (findChildrenF xf cir false fuel) rest sr es [] :=
        rfl
      rw [e1, e2,
        fcLoopF_out xf false (findChildrenF xf cir false fuel) rest sr es [i]]
      simp [idOf]
    | .comp ccid cm ccs =>
      have hrw : ∀ (sr2 : Option ρ) (es2 : Option ErrorStatus),
          findChildrenF xf cir false fuel (Composable.comp ccid true ccs) sr2 es2
            = findChildrenF xf cir false fuel (Composable.comp ccid false ccs)
                sr2 es2 :=
        fun sr2 es2 =>
          findChildrenF_withMatch xf cir false fuel ccid true false ccs sr2 es2
      match sr with
      | none =>
        have e1 : fcLoopF xf false (findChildrenF xf cir false fuel)
            (withMatch (Composable.comp ccid cm ccs) true :: rest) none es []
              = (if is_error es then ([ccid], es)
                 else
                   let rr := findChildrenF xf cir false fuel
                     (Composable.comp ccid true ccs) none es
                   if is_error rr.2 then ([ccid], rr.2)
                   else fcLoopF xf false (findChildrenF xf cir false fuel) rest
                     none rr.2 ([ccid] ++ rr.1)) := rfl
        have e2 : fcLoopF xf false (findChildrenF xf cir false fuel)
            (withMatch (Composable.comp ccid cm ccs) false :: rest) none es []
              = (if is_error es then ([], es)
                 else
                   let rr := findChildrenF xf cir false fuel
                     (Composable.comp ccid false ccs) none es
                   if is_error rr.2 then ([], rr.2)
                   else fcLoopF xf false (findChildrenF xf cir false fuel) rest
                     none rr.2 rr.1) := rfl
        rw [e1, e2]
        simp only [hrw]
        cases hE : is_error es with
        | true => simp [hE, idOf]
        | false =>
          simp only [hE, Bool.false_eq_true, if_false]
          cases hR : is_error (findChildrenF xf cir false fuel
              (Composable.comp ccid false ccs) none es).2 with
          | true => simp [hR, idOf]
          | false =>
            simp only [hR, Bool.false_eq_true, if_false]
            rw [fcLoopF_out xf false (findChildrenF xf cir false fuel) rest none
                (findChildrenF xf cir false fuel
                  (Composable.comp ccid false ccs) none es).2
                ([ccid] ++ (findChildrenF xf cir false fuel
                  (Composable.comp ccid false ccs) none es).1),
              fcLoopF_out xf false (findChildrenF xf cir false fuel) rest none
                (findChildrenF xf cir false fuel
                  (Composable.comp ccid false ccs) none es).2
                ((findChildrenF xf cir false fuel
                  (Composable.comp ccid false ccs) none es).1)]
            simp [idOf]
      | some r =>
        have e1 : fcLoopF xf false (findChildrenF xf cir false fuel)
            (withMatch (Composable.comp ccid cm ccs) true :: rest) (some r) es []
              = (let q := xf ccid r
                 let es1 : Option ErrorStatus :=
                   match q.2 with
                   | none => es
                   | some e => es.map fun _ => e
                 if is_error es1 then ([ccid], es1)
                 else
                   let rr := findChildrenF xf cir false fuel
                     (Composable.comp ccid true ccs) (some q.1) es1
                   if is_error rr.2 then ([ccid], rr.2)
                   else fcLoopF xf false (findChildrenF xf cir false fuel) rest
                     (some q.1) rr.2 ([ccid] ++ rr.1)) := rfl
        have e2 : fcLoopF xf false (findChildrenF xf cir false fuel)
            (withMatch (Composable.comp ccid cm ccs) false :: rest) (some r) es []
              = (let q := xf ccid r
                 let es1 : Option ErrorStatus :=
                   match q.2 with
                   | none => es
                   | some e => es.map fun _ => e
                 if is_error es1 then ([], es1)
                 else
                   let rr := findChildrenF xf cir false fuel
                     (Composable.comp ccid false ccs) (some q.1) es1
                   if is_error rr.2 then ([], rr.2)
                   else fcLoopF xf false (findChildrenF xf cir false fuel) rest
                     (some q.1) rr.2 rr.1) := rfl
        rw [e1, e2]
        simp only [hrw]
        cases hE : is_error
            (match (xf ccid r).2 with
             | none => es
             | some e => es.map fun _ => e) with
        | true => simp [hE, idOf]
        | false =>
          simp only [hE, Bool.false_eq_true, if_false]
          cases hR : is_error (findChildrenF xf cir false fuel
              (Composable.comp ccid false ccs) (some (xf ccid r).1)
              (match (xf ccid r).2 with
               | none => es
               | some e => es.map fun _ => e)).2 with
          | true => simp [hR, idOf]
          | false =>
            simp only [hR, Bool.false_eq_true, if_false]
            rw [fcLoopF_out xf false (findChildrenF xf cir false fuel) rest
                (some (xf ccid r).1)
                (findChildrenF xf cir false fuel
                  (Composable.comp ccid false ccs) (some (xf ccid r).1)
                  (match (xf ccid r).2 with
                   | none => es
                   | some e => es.map fun _ => e)).2
                ([ccid] ++ (findChildrenF xf cir false fuel
                  (Composable.comp ccid false ccs) (some (xf ccid r).1)
                  (match (xf ccid r).2 with
                   | none => es
                   | some e => es.map fun _ => e)).1),
              fcLoopF_out xf false (findChildrenF xf cir false fuel) rest
                (some (xf ccid r).1)
                (findChildrenF xf cir false fuel
                  (Composable.comp ccid false ccs) (some (xf ccid r).1)
                  (match (xf ccid r).2 with
                   | none => es
                   | some e => es.map fun _ => e)).2
                ((findChildrenF xf cir false fuel
                  (Composable.comp ccid false ccs) (some (xf ccid r).1)
                  (match (xf ccid r).2 with
                   | none => es
                   | some e => es.map fun _ => e)).1)]
            simp [idOf]

/-- C6: with no failing collaborator call (pure transform, recursion that
leaves an error-free handle untouched), the deep walk produces exactly the
spec's ordering shape `walkSpec`: sibling order preserved, each child's own
entry immediately followed by the contiguous block of its subtree's
matches, all before the next sibling's entries; the error handle comes back
unchanged. -/
theorem c6_sibling_blocks_in_order (xf : Nat → ρ → ρ × Option ErrorStatus)
    (rec : Composable → Option ρ → Option ErrorStatus →
      List Nat × Option ErrorStatus)
    (es : Option ErrorStatus)
    (hxf : ∀ a r, (xf a r).2 = none)
    (hes : is_error es = false)
    (hrec : ∀ node sr2, (rec node sr2 es).2 = es) :
    ∀ (lst : List Composable) (sr : Option ρ) (out : List Nat),
      fcLoopF xf false rec lst sr es out
        = (out ++ walkSpec xf rec es lst sr, es) := by
  intro lst
  induction lst with
  | nil => intro sr out; simp [fcLoopF_nil, walkSpec]
  | cons c rest ih =>
    intro sr out
    match c with
    | .item i mi =>
      rw [fcLoopF_cons_item, ih]
      cases hm : mi <;>
        simp [walkSpec, subtreeMatches, nextRange, matchesT, idOf]
    | .comp ccid cm ccs =>
      match sr with
      | none =>
        rw [fcLoopF_cons_comp_none]
        simp only [hes, Bool.false_eq_true, if_false,
          hrec (Composable.comp ccid cm ccs) none]
        rw [ih none]
        cases hm : cm <;>
          simp [walkSpec, subtreeMatches, nextRange, matchesT, idOf,
            hrec (Composable.comp ccid cm ccs) none]
      | some r =>
        rw [fcLoopF_cons_comp_some]
        simp only [hxf ccid r, hes, Bool.false_eq_true, if_false,
          hrec (Composable.comp ccid cm ccs) (some (xf ccid r).1)]
        rw [ih (some (xf ccid r).1)]
        cases hm : cm <;>
          simp [walkSpec, subtreeMatches, nextRange, matchesT, idOf,
            hrec (Composable.comp ccid cm ccs) (some (xf ccid r).1)]

/-- C7: the walk aborts on the first reported error.  (1) If the
`children_in_range` narrowing errors, the handle is populated and the walk
returns the empty result without visiting any child.  (2) If a range
transformation errors, the loop returns what it accumulated so far (the
current child's own entry included) with the handle holding that error; no
later sibling is visited.  (3) If a recursive call comes back with an
erroring handle, the loop likewise stops, discards that subtree's partial
matches, keeps the error, and returns the accumulated result. -/
theorem c7_first_error_aborts_walk (xf : Nat → ρ → ρ × Option ErrorStatus)
    (cir : Nat → ρ → (Nat × Nat) × Option ErrorStatus)
    (rec : Composable → Option ρ → Option ErrorStatus →
      List Nat × Option ErrorStatus)
    (cid ccid f l : Nat) (m cm : Bool) (cs ccs rest : List Composable) (r : ρ)
    (s e : ErrorStatus) (sr : Option ρ) (out : List Nat) (fuel : Nat)
    (hs : s.outcome = Outcome.OK) (he : e.outcome ≠ Outcome.OK) :
    (cir cid r = ((f, l), some e) →
      findChildrenF xf cir false (fuel + 1) (.comp cid m cs) (some r) (some s)
        = ([], some e))
    ∧ ((xf ccid r).2 = some e →
      fcLoopF xf false rec (.comp ccid cm ccs :: rest) (some r) (some s) out
        = ((if cm then out ++ [ccid] else out), some e))
    ∧ ((sr = none ∨ ∃ r2, sr = some r2 ∧ (xf ccid r2).2 = none) →
      is_error (rec (.comp ccid cm ccs)
        (nextRange xf (.comp ccid cm ccs) sr) (some s)).2 = true →
      fcLoopF xf false rec (.comp ccid cm ccs :: rest) sr (some s) out
        = ((if cm then out ++ [ccid] else out),
           (rec (.comp ccid cm ccs)
             (nextRange xf (.comp ccid cm ccs) sr) (some s)).2)) := by
  refine ⟨fun hcir => ?_, fun hx => ?_, fun hsr hrec => ?_⟩
  · rw [findChildrenF_comp_some]
    simp [hcir, is_error_some_of_err e he]
  · rw [fcLoopF_cons_comp_some]
    simp [hx, is_error_some_of_err e he]
  · rcases hsr with hn | ⟨r2, hr2, hx2⟩
    · subst hn
      rw [fcLoopF_cons_comp_none]
      have hrec2 : is_error
          (rec (Composable.comp ccid cm ccs) none (some s)).2 = true := by
        simpa [nextRange] using hrec
      simp [is_error_some_of_ok s hs, hrec2, nextRange]
    · subst hr2
      rw [fcLoopF_cons_comp_some]
      have hrec2 : is_error
          (rec (Composable.comp ccid cm ccs) (some (xf ccid r2).1) (some s)).2
            = true := by
        simpa [nextRange] using hrec
      simp [hx2, is_error_some_of_ok s hs, hrec2, nextRange]

/-- C3 (code bug): `find_children` reassigns the loop's `search_range` to
the transformed range, so the range handed to the second composition
sibling is the first sibling's transform composed with the second's,
instead of the originally supplied range transformed once.  On `exTree`
with range `0` (each nesting step adding 1, narrowing keeping children only
for ranges `0` and `1`) the walk finds only item `10`; the second child
searched with the spec's range — the original `0` transformed once into
child 2's space, i.e. `1` — does contain item `20`. -/
theorem c3_compounded_transform_bug :
    find_children exXf exCir exTree (some 0) (some esOK) false = ([10], some esOK)
    ∧ find_children exXf exCir (Composable.comp 2 false [Composable.item 20 true])
        (some ((exXf 2 0).1)) (some esOK) false = ([20], some esOK) :=
  ⟨by decide, by decide⟩

/-- C5 witness: shallow search on a concrete tree, with and without a
search range. -/
theorem c5_witness :
    find_children wXf wCir (Composable.comp 0 true wKids) none (some esOK) true
        = ([1, 2], some esOK)
    ∧ find_children wXf wCir (Composable.comp 0 true wKids) (some 5) (some esOK)
        true = ([2], some esOK) := by
  have h := c5_shallow_direct_children wXf wCir 0 true wKids (some esOK)
  refine ⟨h.1.trans (by rfl), (h.2 5 1 3 rfl rfl).trans (by rfl)⟩

/-- C6 witness: the ordering decomposition at a concrete sibling list,
search range and accumulator. -/
theorem c6_witness :
    fcLoopF wXf false recW wKids (some 0) (some esOK) [5]
      = ([5, 1, 2, 7], some esOK) :=
  (c6_sibling_blocks_in_order wXf recW (some esOK) (fun _ _ => rfl) rfl
    (fun _ _ => rfl) wKids (some 0) [5]).trans (by rfl)

/-- C7 witness: the three abort scenarios at concrete inputs — a failing
narrowing, a failing transform, and a recursive call that errors. -/
theorem c7_witness :
    findChildrenF wXf badCir false 1 (Composable.comp 0 true [Composable.item 1 true])
        (some 0) (some esOK) = ([], some errE)
    ∧ fcLoopF badXf false recErr [Composable.comp 2 true []] (some 0) (some esOK) [9]
        = ([9, 2], some errE)
    ∧ fcLoopF wXf false recErr [Composable.comp 2 true []] none (some esOK) [9]
        = ([9, 2], some errE) := by
  refine ⟨?_, ?_, ?_⟩
  · exact (c7_first_error_aborts_walk wXf badCir recErr 0 2 0 0 true true
      [Composable.item 1 true] [] [] 0 esOK errE none [9] 0 rfl
      (by decide)).1 rfl
  · exact ((c7_first_error_aborts_walk badXf wCir recErr 0 2 0 0 true true
      [] [] [] 0 esOK errE none [9] 0 rfl (by decide)).2.1 rfl).trans (by rfl)
  · exact ((c7_first_error_aborts_walk wXf wCir recErr 0 2 0 0 true true
      [] [] [] 0 esOK errE none [9] 0 rfl (by decide)).2.2 (Or.inl rfl)
      (by decide)).trans (by rfl)

end OTIO
